import Mathlib

/-!
Verification of the DotOcr browser client against its specification.

The development shallowly embeds the client's five source modules:
the API service (`handleResponse`, `parseDocument`), the orchestrator
component's state transitions (`handleFileSelect`, `handleParse`), the
sidebar's parse-button logic, the output panel (content fallbacks, copy,
download, the markdown-to-HTML formatter), and the document-preview
component's effect/cleanup protocol and render function.
-/

namespace DotOcr

/-- A user-selected local file: name, MIME type and size in bytes
(the `File` object of the browser, with the byte payload abstracted). -/
structure FileInfo where
  name : String
  type : String
  size : Nat
deriving DecidableEq

/-- One entry of a 422 validation payload `detail` list; `msg` is `none`
when the field is absent in the JSON object. -/
structure ValidationDetail where
  msg : Option String
deriving DecidableEq

/-- An HTTP response as seen by the API service: status, status text and
the decoded JSON body.  `errorDetail` is the optional `detail` list of a
validation-error body; `payload` is the success-typed body. -/
structure HttpResponse (α : Type) where
  status : Nat
  statusText : String
  errorDetail : Option (List ValidationDetail)
  payload : α

/-- The `Response.ok` flag of the fetch API: status in the 2xx range. -/
def respOk (status : Nat) : Bool := 200 ≤ status && status ≤ 299

/-- The JavaScript expression `error.detail?.[0]?.msg || 'Invalid input'`:
the first detail entry's `msg` unless the list is absent or empty, the
field is absent, or the string is empty (falsy). -/
def firstDetailMsg (detail : Option (List ValidationDetail)) : String :=
  match detail with
  | some (d :: _) =>
    match d.msg with
    | some m => if m = "" then "Invalid input" else m
    | none => "Invalid input"
  | _ => "Invalid input"

/-- The `ApiService.handleResponse` method: 2xx returns the decoded body; 422 throws
`Validation Error: <first detail msg or fallback>`; any other non-2xx
throws `HTTP <status>: <statusText>`. -/
def handleResponse {α : Type} (r : HttpResponse α) : Except String α :=
  if respOk r.status then Except.ok r.payload
  else if r.status = 422 then
    Except.error ("Validation Error: " ++ firstDetailMsg r.errorDetail)
  else
    Except.error ("HTTP " ++ toString r.status ++ ": " ++ r.statusText)

/-- A multipart form-data field value: a file or a plain string. -/
inductive FormValue where
  | fileVal (f : FileInfo)
  | strVal (s : String)
deriving DecidableEq

/-- The multipart body built by `ApiService.parseDocument`: exactly the two
`append` calls of the source, in order. -/
def parseDocumentFormData (file : FileInfo) (promptId : String) :
    List (String × FormValue) :=
  [("file", FormValue.fileVal file), ("promptId", FormValue.strVal promptId)]

/-- The `data` payload of a successful parse: markdown plus raw text. -/
structure OutputData where
  markdown : String
  rawText : String
deriving DecidableEq

/-- The `metadata` record of a successful parse. -/
structure ParseMetadata where
  storage_key : String
  model : String
  processing_time_ms : Nat
  request_id : String
  file_size_kb : Nat
deriving DecidableEq

/-- The `ParseResponse` JSON body. -/
structure ParseResponse where
  success : Bool
  data : OutputData
  metadata : ParseMetadata
deriving DecidableEq

/-- Top-level UI state owned by the `OCRInterface` orchestrator. -/
structure UIState where
  selectedFile : Option FileInfo
  isLoading : Bool
  hasOutput : Bool
  outputData : Option ParseResponse
deriving DecidableEq

/-- The `OCRInterface.handleFileSelect` transition: set the selected file
and clear the output flag; nothing else is touched. -/
def handleFileSelect (s : UIState) (f : FileInfo) : UIState :=
  { s with selectedFile := some f, hasOutput := false }

/-- The synchronous prefix of `OCRInterface.handleParse`: loading on,
output flag and data cleared. -/
def startParse (s : UIState) : UIState :=
  { s with isLoading := true, hasOutput := false, outputData := none }

/-- The `OCRInterface.handleParse` transition, with the settled outcome of
`apiService.parseDocument` passed explicitly: on success the response is
stored and the output flag raised; on failure only a toast is shown; the
`finally` block clears the loading flag in both cases. -/
def handleParse (s : UIState) (outcome : Except String ParseResponse) :
    UIState :=
  match outcome with
  | Except.ok r =>
    { startParse s with outputData := some r, hasOutput := true, isLoading := false }
  | Except.error _ =>
    { startParse s with isLoading := false }

/-- The `disabled` expression of the sidebar's Parse button:
`!selectedFile || !selectedPrompt || isLoading || loadingPrompts`
(a null file and the empty prompt string are falsy). -/
def parseButtonDisabled (selectedFile : Option FileInfo)
    (selectedPrompt : String) (isLoading loadingPrompts : Bool) : Bool :=
  selectedFile.isNone || selectedPrompt == "" || isLoading || loadingPrompts

/-- The `Sidebar.handleParseClick` handler: calls `onParse(selectedFile, selectedPrompt)`
only when the file is non-null and the prompt string truthy (non-empty);
returns the arguments of that call, or `none` when it is skipped. -/
def handleParseClick (selectedFile : Option FileInfo)
    (selectedPrompt : String) : Option (FileInfo × String) :=
  match selectedFile with
  | some f => if selectedPrompt = "" then none else some (f, selectedPrompt)
  | none => none

theorem string_append_assoc (a b c : String) :
    a ++ b ++ c = a ++ (b ++ c) := by
  apply String.ext
  simp only [String.data_append, List.append_assoc]

/-- Claim C5: for every response whose status is outside the 2xx range and
is not 422, `handleResponse` throws an error whose message contains the
HTTP status code and the status text. -/
theorem C5_http_error_message {α : Type} (r : HttpResponse α)
    (hok : respOk r.status = false) (h422 : r.status ≠ 422) :
    ∃ pre post pre2 post2,
      handleResponse r = Except.error (pre ++ toString r.status ++ post) ∧
      handleResponse r = Except.error (pre2 ++ r.statusText ++ post2) := by
  have hmsg : handleResponse r =
      Except.error ("HTTP " ++ toString r.status ++ ": " ++ r.statusText) := by
    simp only [handleResponse, hok, Bool.false_eq_true, if_false, if_neg h422]
  refine ⟨"HTTP ", ": " ++ r.statusText,
    "HTTP " ++ toString r.status ++ ": ", "", ?_, ?_⟩
  · rw [hmsg, string_append_assoc]
  · rw [hmsg, String.append_empty]

/-- Witness for C5 at a concrete 500 response. -/
theorem C5_http_error_message_witness :
    let r : HttpResponse Unit :=
      { status := 500, statusText := "Internal Server Error",
        errorDetail := none, payload := () }
    (respOk r.status = false ∧ r.status ≠ 422) ∧
    ∃ pre post pre2 post2,
      handleResponse r = Except.error (pre ++ toString r.status ++ post) ∧
      handleResponse r = Except.error (pre2 ++ r.statusText ++ post2) :=
  ⟨⟨by decide, by decide⟩,
    C5_http_error_message _ (by decide) (by decide)⟩

/-- Claim C1, counterexample: for a 422 response whose `detail` list is
`[{ msg: "bad" }]` the surfaced message is `Validation Error: bad`, which
is not equal to the first entry's `msg` value `bad`; moreover with
`detail = [{ msg: "" }]` (non-empty list) the fallback is used, so the
message also differs from the first entry's (empty) `msg`. -/
theorem C1_counterexample :
    (handleResponse
      { status := 422, statusText := "Unprocessable Entity",
        errorDetail := some [{ msg := some "bad" }], payload := () }
      = Except.error "Validation Error: bad" ∧
      "Validation Error: bad" ≠ "bad") ∧
    (handleResponse
      { status := 422, statusText := "Unprocessable Entity",
        errorDetail := some [{ msg := some "" }], payload := () }
      = Except.error "Validation Error: Invalid input" ∧
      "Validation Error: Invalid input" ≠ "") := by
  refine ⟨⟨?_, by decide⟩, ⟨?_, by decide⟩⟩ <;> rfl

/-- Claim C1, amended: for a 422 response, the surfaced message is the
string `Validation Error: ` followed by the first detail entry's `msg`
when the detail list is non-empty and that `msg` is a non-empty string;
when the detail list is absent or empty, or the first entry's `msg` is
absent or empty, the message is the generic fallback
`Validation Error: Invalid input`. -/
theorem C1_validation_message {α : Type} (r : HttpResponse α)
    (h : r.status = 422) :
    (∀ m ds, r.errorDetail = some ({ msg := some m } :: ds) → m ≠ "" →
      handleResponse r = Except.error ("Validation Error: " ++ m)) ∧
    ((r.errorDetail = none ∨ r.errorDetail = some [] ∨
      (∃ ds, r.errorDetail = some ({ msg := some "" } :: ds)) ∨
      (∃ ds, r.errorDetail = some ({ msg := none } :: ds))) →
      handleResponse r = Except.error "Validation Error: Invalid input") := by
  have hok : respOk 422 = false := by decide
  constructor
  · intro m ds hd hm
    simp [handleResponse, hok, h, firstDetailMsg, hd, hm]
  · rintro (hd | hd | ⟨ds, hd⟩ | ⟨ds, hd⟩) <;>
      simp [handleResponse, hok, h, firstDetailMsg, hd]

/-- Witness for C1 (amended) at concrete 422 responses. -/
theorem C1_validation_message_witness :
    handleResponse
      { status := 422, statusText := "Unprocessable Entity",
        errorDetail := some [{ msg := some "field required" }],
        payload := () }
      = Except.error ("Validation Error: " ++ "field required") ∧
    handleResponse
      { status := 422, statusText := "Unprocessable Entity",
        errorDetail := none, payload := (() : Unit) }
      = Except.error "Validation Error: Invalid input" :=
  ⟨(C1_validation_message _ rfl).1 "field required" [] rfl (by decide),
   (C1_validation_message _ rfl).2 (Or.inl rfl)⟩

/-- Claim C4: after `handleParse`, a successful outcome leaves
`hasOutput = true`, `outputData` equal to the (non-null) response and
`isLoading = false`; a failed outcome leaves `hasOutput = false`,
`outputData = null`, `isLoading = false` — exactly the cleared pending
state with the loading flag dropped. -/
theorem C4_parse_outcome (s : UIState) :
    (∀ r : ParseResponse,
      (handleParse s (Except.ok r)).hasOutput = true ∧
      (handleParse s (Except.ok r)).outputData = some r ∧
      (handleParse s (Except.ok r)).isLoading = false) ∧
    (∀ e : String,
      (handleParse s (Except.error e)).hasOutput = false ∧
      (handleParse s (Except.error e)).outputData = none ∧
      (handleParse s (Except.error e)).isLoading = false ∧
      handleParse s (Except.error e) = { startParse s with isLoading := false }) := by
  exact ⟨fun r => ⟨rfl, rfl, rfl⟩, fun e => ⟨rfl, rfl, rfl, rfl⟩⟩

/-- Claim C9: the select-file transition sets `selectedFile`, clears
`hasOutput`, and leaves `isLoading` and `outputData` unchanged. -/
theorem C9_file_select_frame (s : UIState) (f : FileInfo) :
    (handleFileSelect s f).selectedFile = some f ∧
    (handleFileSelect s f).hasOutput = false ∧
    (handleFileSelect s f).isLoading = s.isLoading ∧
    (handleFileSelect s f).outputData = s.outputData :=
  ⟨rfl, rfl, rfl, rfl⟩

/-- Claim C7: `parseDocument` sends exactly the two multipart fields
`file` and `promptId`; the Parse button is disabled whenever no file is
selected or the prompt identifier is empty; and the click handler never
fires without both. -/
theorem C7_parse_contract :
    (∀ f pid, parseDocumentFormData f pid =
      [("file", FormValue.fileVal f), ("promptId", FormValue.strVal pid)] ∧
      (parseDocumentFormData f pid).length = 2 ∧
      (parseDocumentFormData f pid).map Prod.fst = ["file", "promptId"]) ∧
    (∀ sf sp l lp, sf = none ∨ sp = "" →
      parseButtonDisabled sf sp l lp = true) ∧
    (∀ sf sp f pid, handleParseClick sf sp = some (f, pid) →
      sf = some f ∧ sp = pid ∧ pid ≠ "") := by
  refine ⟨fun f pid => ⟨rfl, rfl, rfl⟩, ?_, ?_⟩
  · rintro sf sp l lp (rfl | rfl) <;> simp [parseButtonDisabled]
  · intro sf sp f pid h
    cases sf with
    | none => simp [handleParseClick] at h
    | some g =>
      by_cases hsp : sp = "" <;> simp [handleParseClick, hsp] at h
      exact ⟨by rw [h.1], h.2, h.2 ▸ hsp⟩

/-- Witness for C7 at a concrete sidebar state and call. -/
theorem C7_parse_contract_witness :
    parseDocumentFormData { name := "a.pdf", type := "application/pdf", size := 3 } "ocr"
      = [("file", FormValue.fileVal { name := "a.pdf", type := "application/pdf", size := 3 }),
         ("promptId", FormValue.strVal "ocr")] ∧
    parseButtonDisabled none "ocr" false false = true ∧
    (handleParseClick (some { name := "a.pdf", type := "application/pdf", size := 3 }) "ocr"
      = some ({ name := "a.pdf", type := "application/pdf", size := 3 }, "ocr") →
      "ocr" ≠ "") :=
  ⟨(C7_parse_contract.1 _ "ocr").1,
   C7_parse_contract.2.1 none "ocr" false false (Or.inl rfl),
   fun h => (C7_parse_contract.2.2 _ _ _ _ h).2.2⟩

/-!
The markdown-to-HTML formatter `formatMarkdownForDisplay` of the output
panel is the chain of six global regex replacements of the source, in
order: newline, bold, italic, and headings 1 to 3.  Each replacement is
embedded at the character-list level.
-/

/-- The replacement `.replace(/\n/g, '<br/>')`. -/
def replaceNl (cs : List Char) : List Char :=
  cs.flatMap (fun c => if c = '\n' then "<br/>".data else [c])

/-- The lazy search for a closing `**`: splits `cs` as
`mid ++ '*' :: '*' :: rest` with `mid` minimal and newline-free (the `.`
of `(.*?)` does not match a newline), or fails. -/
def lazyClose2 : List Char → Option (List Char × List Char)
  | [] => none
  | [_] => none
  | c1 :: c2 :: rest =>
    if c1 = '*' ∧ c2 = '*' then some ([], rest)
    else if c1 = '\n' then none
    else (lazyClose2 (c2 :: rest)).map (fun p => (c1 :: p.1, p.2))

/-- The lazy search for a closing single `*`. -/
def lazyClose1 : List Char → Option (List Char × List Char)
  | [] => none
  | c :: rest =>
    if c = '*' then some ([], rest)
    else if c = '\n' then none
    else (lazyClose1 rest).map (fun p => (c :: p.1, p.2))

theorem lazyClose2_eq : ∀ cs mid rest, lazyClose2 cs = some (mid, rest) →
    cs = mid ++ '*' :: '*' :: rest
  | [], mid, rest => by simp [lazyClose2]
  | [c], mid, rest => by simp [lazyClose2]
  | c1 :: c2 :: cs, mid, rest => by
    intro h
    simp only [lazyClose2] at h
    split at h
    · next hc =>
      simp only [Option.some.injEq, Prod.mk.injEq] at h
      obtain ⟨hm, hr⟩ := h
      subst hm; subst hr
      simp [hc.1, hc.2]
    · split at h
      · exact absurd h (by simp)
      · rw [Option.map_eq_some'] at h
        obtain ⟨⟨m2, r2⟩, hlc, hmk⟩ := h
        simp only [Prod.mk.injEq] at hmk
        obtain ⟨hm, hr⟩ := hmk
        have ih := lazyClose2_eq (c2 :: cs) m2 r2 hlc
        rw [← hm, ← hr]
        simp [ih]

theorem lazyClose1_eq : ∀ cs mid rest, lazyClose1 cs = some (mid, rest) →
    cs = mid ++ '*' :: rest
  | [], mid, rest => by simp [lazyClose1]
  | c :: cs, mid, rest => by
    intro h
    simp only [lazyClose1] at h
    split at h
    · next hc =>
      simp only [Option.some.injEq, Prod.mk.injEq] at h
      obtain ⟨hm, hr⟩ := h
      subst hm; subst hr
      simp [hc]
    · split at h
      · exact absurd h (by simp)
      · rw [Option.map_eq_some'] at h
        obtain ⟨⟨m2, r2⟩, hlc, hmk⟩ := h
        simp only [Prod.mk.injEq] at hmk
        obtain ⟨hm, hr⟩ := hmk
        have ih := lazyClose1_eq cs m2 r2 hlc
        rw [← hm, ← hr]
        simp [ih]

theorem lazyClose2_length {cs mid rest : List Char}
    (h : lazyClose2 cs = some (mid, rest)) : rest.length < cs.length := by
  have hd := lazyClose2_eq cs mid rest h
  subst hd
  simp [List.length_append]
  omega

theorem lazyClose1_length {cs mid rest : List Char}
    (h : lazyClose1 cs = some (mid, rest)) : rest.length < cs.length := by
  have hd := lazyClose1_eq cs mid rest h
  subst hd
  simp [List.length_append]
  omega

/-- The replacement `.replace(/\*\*(.*?)\*\*/g, '<strong>$1</strong>')`:
scan left to right; at a `**` opener take the lazily closed span, emit the
tagged capture, and continue after the match; on a failed attempt advance
one character. -/
def replaceBold : List Char → List Char
  | [] => []
  | [c] => [c]
  | c1 :: c2 :: rest =>
    if c1 = '*' ∧ c2 = '*' then
      match h : lazyClose2 rest with
      | some (mid, rest2) =>
        "<strong>".data ++ mid ++ "</strong>".data ++ replaceBold rest2
      | none => c1 :: replaceBold (c2 :: rest)
    else c1 :: replaceBold (c2 :: rest)
termination_by cs => cs.length
decreasing_by
  · have hlen := lazyClose2_length h
    simp only [List.length_cons]
    omega
  · simp only [List.length_cons]
    omega
  · simp only [List.length_cons]
    omega

/-- The replacement `.replace(/\*(.*?)\*/g, '<em>$1</em>')`. -/
def replaceEm : List Char → List Char
  | [] => []
  | c :: rest =>
    if c = '*' then
      match h : lazyClose1 rest with
      | some (mid, rest2) =>
        "<em>".data ++ mid ++ "</em>".data ++ replaceEm rest2
      | none => c :: replaceEm rest
    else c :: replaceEm rest
termination_by cs => cs.length
decreasing_by
  · have hlen := lazyClose1_length h
    simp only [List.length_cons]
    omega
  · simp only [List.length_cons]
    omega
  · simp only [List.length_cons]
    omega

/-- Split a character list at every newline (the lines seen by a `/m`
regex); always returns at least one (possibly empty) line. -/
def splitNl : List Char → List (List Char)
  | [] => [[]]
  | c :: rest =>
    if c = '\n' then [] :: splitNl rest
    else
      match splitNl rest with
      | [] => [[c]]
      | l :: ls => (c :: l) :: ls

/-- Rejoin lines with newlines; left inverse of `splitNl`. -/
def joinNl : List (List Char) → List Char
  | [] => []
  | [l] => l
  | l :: ls => l ++ '\n' :: joinNl ls

/-- One heading replacement `.replace(/^<mark>(.*$)/gm, '<tag>$1</tag>')`:
with the `m` flag, `^`/`$` anchor at line boundaries, so a line that
starts with the marker is wrapped (the greedy `.*$` captures the whole
remainder of the line). -/
def replaceHeadingPass (mark openTag closeTag : List Char)
    (cs : List Char) : List Char :=
  joinNl ((splitNl cs).map (fun line =>
    if mark.isPrefixOf line then openTag ++ line.drop mark.length ++ closeTag
    else line))

/-- The replacement `.replace(/^# (.*$)/gm, '<h1>$1</h1>')`. -/
def replaceH1 (cs : List Char) : List Char :=
  replaceHeadingPass "# ".data "<h1>".data "</h1>".data cs

/-- The replacement `.replace(/^## (.*$)/gm, '<h2>$1</h2>')`. -/
def replaceH2 (cs : List Char) : List Char :=
  replaceHeadingPass "## ".data "<h2>".data "</h2>".data cs

/-- The replacement `.replace(/^### (.*$)/gm, '<h3>$1</h3>')`. -/
def replaceH3 (cs : List Char) : List Char :=
  replaceHeadingPass "### ".data "<h3>".data "</h3>".data cs

/-- The `formatMarkdownForDisplay` function of the output panel: the six
substitutions chained in source order. -/
def formatMarkdownForDisplay (markdown : String) : String :=
  String.mk (replaceH3 (replaceH2 (replaceH1 (replaceEm (replaceBold
    (replaceNl markdown.data))))))

/-- Decidable substring occurrence: `pat` occurs somewhere in `s`. -/
def subOccurs (pat s : String) : Bool :=
  s.data.tails.any (fun t => pat.data.isPrefixOf t)

/-- Fuelled, structurally recursive evaluator for `replaceBold`, used to
compute concrete instances inside the kernel. -/
def replaceBoldF : Nat → List Char → List Char
  | 0, cs => cs
  | _ + 1, [] => []
  | _ + 1, [c] => [c]
  | n + 1, c1 :: c2 :: rest =>
    if c1 = '*' ∧ c2 = '*' then
      match lazyClose2 rest with
      | some (mid, rest2) =>
        "<strong>".data ++ mid ++ "</strong>".data ++ replaceBoldF n rest2
      | none => c1 :: replaceBoldF n (c2 :: rest)
    else c1 :: replaceBoldF n (c2 :: rest)

/-- Fuelled, structurally recursive evaluator for `replaceEm`. -/
def replaceEmF : Nat → List Char → List Char
  | 0, cs => cs
  | _ + 1, [] => []
  | n + 1, c :: rest =>
    if c = '*' then
      match lazyClose1 rest with
      | some (mid, rest2) =>
        "<em>".data ++ mid ++ "</em>".data ++ replaceEmF n rest2
      | none => c :: replaceEmF n rest
    else c :: replaceEmF n rest

theorem replaceBoldF_eq : ∀ (n : Nat) (cs : List Char), cs.length ≤ n →
    replaceBoldF n cs = replaceBold cs
  | 0, cs, h => by
    have hnil : cs = [] := List.length_eq_zero.mp (Nat.le_zero.mp h)
    subst hnil
    simp [replaceBoldF, replaceBold]
  | n + 1, [], _ => by simp [replaceBoldF, replaceBold]
  | n + 1, [c], _ => by simp [replaceBoldF, replaceBold]
  | n + 1, c1 :: c2 :: rest, h => by
    rw [replaceBold.eq_def]
    simp only [replaceBoldF, List.length_cons] at h ⊢
    split
    · cases hlc : lazyClose2 rest with
      | some p =>
        obtain ⟨mid, rest2⟩ := p
        have hl : rest2.length ≤ n := by
          have := lazyClose2_length hlc
          omega
        simp only [replaceBoldF_eq n rest2 hl]
      | none =>
        simp only [replaceBoldF_eq n (c2 :: rest) (by simp; omega)]
    · simp only [replaceBoldF_eq n (c2 :: rest) (by simp; omega)]

theorem replaceEmF_eq : ∀ (n : Nat) (cs : List Char), cs.length ≤ n →
    replaceEmF n cs = replaceEm cs
  | 0, cs, h => by
    have hnil : cs = [] := List.length_eq_zero.mp (Nat.le_zero.mp h)
    subst hnil
    simp [replaceEmF, replaceEm]
  | n + 1, [], _ => by simp [replaceEmF, replaceEm]
  | n + 1, c :: rest, h => by
    rw [replaceEm.eq_def]
    simp only [replaceEmF, List.length_cons] at h ⊢
    split
    · cases hlc : lazyClose1 rest with
      | some p =>
        obtain ⟨mid, rest2⟩ := p
        have hl : rest2.length ≤ n := by
          have := lazyClose1_length hlc
          omega
        simp only [replaceEmF_eq n rest2 hl]
      | none =>
        simp only [replaceEmF_eq n rest (by omega)]
    · simp only [replaceEmF_eq n rest (by omega)]

/-- Fuelled form of the whole formatter; equal to
`formatMarkdownForDisplay` and evaluable by the kernel. -/
def formatMarkdownForDisplayF (markdown : String) : String :=
  let s1 := replaceNl markdown.data
  let s2 := replaceBoldF s1.length s1
  let s3 := replaceEmF s2.length s2
  String.mk (replaceH3 (replaceH2 (replaceH1 s3)))

theorem formatMarkdownForDisplayF_eq (markdown : String) :
    formatMarkdownForDisplayF markdown = formatMarkdownForDisplay markdown := by
  unfold formatMarkdownForDisplayF formatMarkdownForDisplay
  simp only [replaceBoldF_eq _ _ (Nat.le_refl _), replaceEmF_eq _ _ (Nat.le_refl _)]

/-- The hard-coded `sampleMarkdown` template literal of the output panel. -/
def sampleMarkdown : String :=
  "# AMIR ABDALLAH\n\n**Contact Information**\n- Email: amir.abdallah@email.com\n- Phone: +216 XX XXX XXX\n- Location: Sfax, Tunisia\n\n## EDUCATION\n\n**National School of Electronics and Telecommunications of Sfax**\n*Engineering Degree in Telecommunications* | 2019 - 2022\n\n## EXPERIENCE\n\n### Proxym AI Software Engineering Intern\n*June 2022 - August 2022*\n- Developed machine learning models for document processing\n- Implemented OCR solutions using Python and TensorFlow\n- Collaborated with cross-functional teams on AI projects\n\n### Junior Developer - TechCorp\n*September 2022 - Present*\n- Full-stack web development using React and Node.js\n- Database design and optimization with PostgreSQL\n- API development and integration\n\n## SKILLS\n\n**Programming Languages:** Python, JavaScript, TypeScript, Java\n**Frameworks:** React, Node.js, Express, Django\n**Databases:** PostgreSQL, MongoDB, Redis\n**Tools:** Git, Docker, AWS, Jenkins\n\n## PROJECTS\n\n### Document Processing System\nBuilt an OCR system for automated document analysis\n*Technologies: Python, OpenCV, Tesseract*\n\n### E-commerce Platform\nFull-stack application with payment integration\n*Technologies: React, Node.js, Stripe API*"

/-- The hard-coded `sampleRawText` template literal of the output panel. -/
def sampleRawText : String :=
  "AMIR ABDALLAH\n\nEmail: amir.abdallah@email.com | Phone: +216 XX XXX XXX\nLocation: Sfax, Tunisia\n\nEDUCATION\n\nNational School of Electronics and Telecommunications of Sfax\nEngineering Degree in Telecommunications\n2019 - 2022\n\nEXPERIENCE\n\nProxym AI Software Engineering Intern\nJune 2022 - August 2022\n• Developed machine learning models for document processing\n• Implemented OCR solutions using Python and TensorFlow\n• Collaborated with cross-functional teams on AI projects\n\nJunior Developer - TechCorp\nSeptember 2022 - Present\n• Full-stack web development using React and Node.js\n• Database design and optimization with PostgreSQL\n• API development and integration\n\nSKILLS\n\nProgramming Languages: Python, JavaScript, TypeScript, Java\nFrameworks: React, Node.js, Express, Django\nDatabases: PostgreSQL, MongoDB, Redis\nTools: Git, Docker, AWS, Jenkins\n\nPROJECTS\n\nDocument Processing System\n• Built an OCR system for automated document analysis\n• Technologies: Python, OpenCV, Tesseract\n\nE-commerce Platform\n• Full-stack application with payment integration\n• Technologies: React, Node.js, Stripe API"

/-- The expression `outputData?.markdown || sampleMarkdown`: the real
markdown unless `outputData` is null or the markdown is the (falsy)
empty string, in which case the sample is substituted. -/
def markdownContent (outputData : Option OutputData) : String :=
  match outputData with
  | some d => if d.markdown = "" then sampleMarkdown else d.markdown
  | none => sampleMarkdown

/-- The expression `outputData?.rawText || sampleRawText`. -/
def rawTextContent (outputData : Option OutputData) : String :=
  match outputData with
  | some d => if d.rawText = "" then sampleRawText else d.rawText
  | none => sampleRawText

/-- The output panel's active tab. -/
inductive Tab where
  | markdown
  | raw
deriving DecidableEq

/-- The expression
`activeTab === 'markdown' ? markdownContent : rawTextContent` shared by
the Copy and Download handlers. -/
def activeContent (tab : Tab) (outputData : Option OutputData) : String :=
  match tab with
  | Tab.markdown => markdownContent outputData
  | Tab.raw => rawTextContent outputData

/-- The filename expression
``output.${activeTab === 'markdown' ? 'md' : 'txt'}``. -/
def downloadFilename (tab : Tab) : String :=
  match tab with
  | Tab.markdown => "output.md"
  | Tab.raw => "output.txt"

/-- The Download button handler: the `(filename, content)` pair passed to
`handleDownload`, which serialises `content` unchanged into a blob saved
under `filename`. -/
def downloadAction (tab : Tab) (outputData : Option OutputData) :
    String × String :=
  (downloadFilename tab, activeContent tab outputData)

/-- The Copy button handler: the string written to the clipboard. -/
def copyAction (tab : Tab) (outputData : Option OutputData) : String :=
  activeContent tab outputData

/-- The HTML string rendered in the markdown tab:
`formatMarkdownForDisplay(markdownContent)`. -/
def displayedMarkdownHtml (outputData : Option OutputData) : String :=
  formatMarkdownForDisplay (markdownContent outputData)

/-- The text rendered in the raw tab. -/
def displayedRawText (outputData : Option OutputData) : String :=
  rawTextContent outputData

/-- Claim C3, counterexample: with a parse result whose raw text is the
empty string, the raw-tab download is still named `output.txt` but its
content is the hard-coded sample, not the (empty) raw text. -/
theorem C3_counterexample :
    (downloadAction Tab.raw (some { markdown := "x", rawText := "" })).1
      = "output.txt" ∧
    (downloadAction Tab.raw (some { markdown := "x", rawText := "" })).2
      = sampleRawText ∧
    (downloadAction Tab.raw (some { markdown := "x", rawText := "" })).2
      ≠ ({ markdown := "x", rawText := "" } : OutputData).rawText := by
  refine ⟨rfl, rfl, ?_⟩
  decide

/-- Claim C3, amended: the raw-tab download is a file named `output.txt`
whose content equals the parse result's raw text whenever that raw text
is a non-empty string (and the markdown-tab download is `output.md` with
the markdown content under the same proviso); an empty raw text is
replaced by the hard-coded sample. -/
theorem C3_download_content (d : OutputData) :
    (d.rawText ≠ "" →
      downloadAction Tab.raw (some d) = ("output.txt", d.rawText)) ∧
    (d.markdown ≠ "" →
      downloadAction Tab.markdown (some d) = ("output.md", d.markdown)) := by
  constructor <;> intro h <;>
    simp [downloadAction, activeContent, rawTextContent, markdownContent,
      downloadFilename, h]

/-- Witness for C3 (amended) at a concrete non-empty parse result. -/
theorem C3_download_content_witness :
    ("r" ≠ "" ∧ "m" ≠ "") ∧
    downloadAction Tab.raw (some { markdown := "m", rawText := "r" })
      = ("output.txt", "r") ∧
    downloadAction Tab.markdown (some { markdown := "m", rawText := "r" })
      = ("output.md", "m") :=
  ⟨⟨by decide, by decide⟩,
   (C3_download_content _).1 (by decide),
   (C3_download_content _).2 (by decide)⟩

/-- Claim C10: when the parse result's markdown (resp. raw text) is
absent or empty, the output panel substitutes the hard-coded sample, and
that sample is what is displayed, copied and downloaded; the real content
is used exactly when it is a non-empty string. -/
theorem C10_sample_fallback (d : OutputData) :
    (d.markdown = "" →
      markdownContent (some d) = sampleMarkdown ∧
      copyAction Tab.markdown (some d) = sampleMarkdown ∧
      (downloadAction Tab.markdown (some d)).2 = sampleMarkdown ∧
      displayedMarkdownHtml (some d) = formatMarkdownForDisplay sampleMarkdown) ∧
    (d.rawText = "" →
      rawTextContent (some d) = sampleRawText ∧
      copyAction Tab.raw (some d) = sampleRawText ∧
      (downloadAction Tab.raw (some d)).2 = sampleRawText ∧
      displayedRawText (some d) = sampleRawText) ∧
    (d.markdown ≠ "" →
      markdownContent (some d) = d.markdown ∧
      copyAction Tab.markdown (some d) = d.markdown ∧
      (downloadAction Tab.markdown (some d)).2 = d.markdown ∧
      displayedMarkdownHtml (some d) = formatMarkdownForDisplay d.markdown) ∧
    (d.rawText ≠ "" →
      rawTextContent (some d) = d.rawText ∧
      copyAction Tab.raw (some d) = d.rawText ∧
      (downloadAction Tab.raw (some d)).2 = d.rawText ∧
      displayedRawText (some d) = d.rawText) ∧
    (markdownContent none = sampleMarkdown ∧
      rawTextContent none = sampleRawText) := by
  refine ⟨?_, ?_, ?_, ?_, rfl, rfl⟩ <;> intro h <;>
    simp [markdownContent, rawTextContent, copyAction, activeContent,
      downloadAction, displayedMarkdownHtml, displayedRawText, h]

/-- Witness for C10 at concrete empty and non-empty parse results. -/
theorem C10_sample_fallback_witness :
    copyAction Tab.markdown (some { markdown := "", rawText := "" })
      = sampleMarkdown ∧
    copyAction Tab.raw (some { markdown := "", rawText := "" })
      = sampleRawText ∧
    copyAction Tab.markdown (some { markdown := "m", rawText := "r" }) = "m" ∧
    copyAction Tab.raw (some { markdown := "m", rawText := "r" }) = "r" :=
  ⟨((C10_sample_fallback _).1 rfl).2.1,
   ((C10_sample_fallback _).2.1 rfl).2.1,
   ((C10_sample_fallback _).2.2.1 (by decide)).2.1,
   ((C10_sample_fallback _).2.2.2.1 (by decide)).2.1⟩

/-!
The document-preview component.  Its `useEffect` (dependency: the
selected file) sets the `preview` and `fileURL` state and, in the PDF
branch only, creates an object URL and registers a cleanup revoking it.
React runs the previously registered cleanup before the next effect run
and at unmount; `runPreviewEffect` models one selection change processed
under that protocol.  Object URLs are modelled as fresh numeric ids;
`live` is the multiset of created-but-not-revoked URLs.  The asynchronous
`FileReader` result for images is abstracted as `reader`. -/

/-- The `String.prototype.startsWith` test `s.startsWith(pre)`, phrased
on character lists so the kernel can evaluate it. -/
def strStartsWith (s pre : String) : Bool := pre.data.isPrefixOf s.data

/-- State of the document-preview component plus the object-URL
environment. -/
structure PreviewState where
  preview : Option String
  fileURL : Option Nat
  live : List Nat
  cleanup : Option Nat
  nextId : Nat
deriving DecidableEq

/-- Run the registered effect cleanup, if any: `URL.revokeObjectURL` on
the stored URL. -/
def runCleanup (s : PreviewState) : PreviewState :=
  match s.cleanup with
  | some u => { s with live := s.live.erase u, cleanup := none }
  | none => s

/-- One run of the preview `useEffect` for a changed file selection,
preceded (per React) by the previous run's cleanup. -/
def runPreviewEffect (reader : FileInfo → String) (s0 : PreviewState)
    (file : Option FileInfo) : PreviewState :=
  let s := runCleanup s0
  match file with
  | none => { s with preview := none, fileURL := none }
  | some f =>
    if f.type == "application/pdf" then
      { s with live := s.live ++ [s.nextId], fileURL := some s.nextId,
               preview := some ("PDF Document: " ++ f.name),
               cleanup := some s.nextId, nextId := s.nextId + 1 }
    else if strStartsWith f.type "image/" then
      { s with preview := some (reader f), fileURL := none }
    else
      { s with preview := some ("File: " ++ f.name), fileURL := none }

/-- The component's mount state: no preview, no URL, nothing live. -/
def initPreviewState : PreviewState :=
  { preview := none, fileURL := none, live := [], cleanup := none, nextId := 0 }

/-- Process a sequence of file selections from mount. -/
def runSelections (reader : FileInfo → String)
    (sels : List (Option FileInfo)) : PreviewState :=
  sels.foldl (runPreviewEffect reader) initPreviewState

/-- Component teardown: React runs the pending cleanup. -/
def unmountPreview (s : PreviewState) : PreviewState := runCleanup s

/-- The hard-coded `sampleContent` template literal of the document
preview (complete with the source's template-literal indentation). -/
def sampleContent : String :=
  "\n    AMIR ABDALLAH\n    \n    Email: amir.abdallah@email.com | Phone: +216 XX XXX XXX\n    Location: Sfax, Tunisia\n    \n    EDUCATION\n    \n    National School of Electronics and Telecommunications of Sfax\n    Engineering Degree in Telecommunications\n    2019 - 2022\n    \n    EXPERIENCE\n    \n    Proxym AI Software Engineering Intern\n    June 2022 - August 2022\n    • Developed machine learning models for document processing\n    • Implemented OCR solutions using Python and TensorFlow\n    • Collaborated with cross-functional teams on AI projects\n    \n    Junior Developer - TechCorp\n    September 2022 - Present\n    • Full-stack web development using React and Node.js\n    • Database design and optimization with PostgreSQL\n    • API development and integration\n    \n    SKILLS\n    \n    Programming Languages: Python, JavaScript, TypeScript, Java\n    Frameworks: React, Node.js, Express, Django\n    Databases: PostgreSQL, MongoDB, Redis\n    Tools: Git, Docker, AWS, Jenkins\n    \n    PROJECTS\n    \n    Document Processing System\n    • Built an OCR system for automated document analysis\n    • Technologies: Python, OpenCV, Tesseract\n    \n    E-commerce Platform\n    • Full-stack application with payment integration\n    • Technologies: React, Node.js, Stripe API\n  "

/-- What the preview content area renders (the not-loading branch with a
file selected).  `pdfLoadingBlock` stands for the
`PDF Document Preview ... Loading PDF viewer...` text, whose
`toFixed` size formatting is abstracted by carrying the raw byte size. -/
inductive PreviewBody where
  | pdfEmbed (url : Nat)
  | imageTag (dataUrl : String)
  | pdfLoadingBlock (name : String) (sizeBytes : Nat)
  | textBlock (content : String)
deriving DecidableEq

/-- The render branches of the document preview's content area, in
source order: PDF embed when a file URL exists, inline image when the
preview is a data URL, the PDF-loading text for a PDF without URL, and
otherwise the hard-coded sample content. -/
def renderPreviewBody (file : FileInfo) (s : PreviewState) : PreviewBody :=
  if file.type == "application/pdf" && s.fileURL.isSome then
    PreviewBody.pdfEmbed (s.fileURL.getD 0)
  else if strStartsWith file.type "image/" &&
      (match s.preview with
       | some p => strStartsWith p "data:"
       | none => false) then
    PreviewBody.imageTag (s.preview.getD "")
  else if file.type == "application/pdf" then
    PreviewBody.pdfLoadingBlock file.name file.size
  else
    PreviewBody.textBlock sampleContent

/-- Linking invariant of the preview effect protocol: the live object
URLs are exactly the one the registered cleanup would revoke. -/
def previewInv (s : PreviewState) : Prop := s.live = s.cleanup.toList

theorem runCleanup_live (s : PreviewState) (h : previewInv s) :
    (runCleanup s).live = [] ∧ (runCleanup s).cleanup = none := by
  unfold previewInv at h
  unfold runCleanup
  cases hc : s.cleanup with
  | none =>
    rw [hc] at h
    simp at h
    simp [h, hc]
  | some u =>
    rw [hc] at h
    simp at h
    simp [h, List.erase_cons_head]

theorem runPreviewEffect_inv (reader : FileInfo → String)
    (s : PreviewState) (file : Option FileInfo) (h : previewInv s) :
    previewInv (runPreviewEffect reader s file) := by
  obtain ⟨hl, hc⟩ := runCleanup_live s h
  unfold runPreviewEffect previewInv
  cases file with
  | none => simp [hl, hc]
  | some f =>
    by_cases h1 : f.type = "application/pdf"
    · simp [h1, hl, hc]
    · by_cases h2 : strStartsWith f.type "image/" = true <;>
        simp [h1, h2, hl, hc]

theorem runSelections_inv (reader : FileInfo → String)
    (sels : List (Option FileInfo)) : previewInv (runSelections reader sels) := by
  unfold runSelections
  have hgen : ∀ s : PreviewState, previewInv s →
      previewInv (sels.foldl (runPreviewEffect reader) s) := by
    induction sels with
    | nil => intro s hs; exact hs
    | cons x xs ih =>
      intro s hs
      exact ih _ (runPreviewEffect_inv reader s x hs)
  exact hgen initPreviewState rfl

/-- Claim C8: across any sequence of file selections, at most one
preview object URL is ever live (the previous one is revoked by the
effect cleanup when the file changes), and teardown revokes the last
one, so no resource leaks. -/
theorem C8_no_url_leak (reader : FileInfo → String)
    (sels : List (Option FileInfo)) :
    (runSelections reader sels).live.length ≤ 1 ∧
    (unmountPreview (runSelections reader sels)).live = [] := by
  have h := runSelections_inv reader sels
  constructor
  · rw [h]
    cases (runSelections reader sels).cleanup <;> simp
  · exact (runCleanup_live _ h).1

/-- Claim C2: for a selected file that is neither a PDF nor an image, the
effect stores the placeholder `File: <name>` in the `preview` state and
creates no object URL, but the content area renders the hard-coded
sample text, which does not contain the file's name. -/
theorem C2_other_type_preview :
    (runPreviewEffect (fun _ => "") initPreviewState
        (some { name := "notes.txt", type := "text/plain", size := 10 })).preview
      = some ("File: " ++ "notes.txt") ∧
    (runPreviewEffect (fun _ => "") initPreviewState
        (some { name := "notes.txt", type := "text/plain", size := 10 })).fileURL
      = none ∧
    (runPreviewEffect (fun _ => "") initPreviewState
        (some { name := "notes.txt", type := "text/plain", size := 10 })).live
      = [] ∧
    renderPreviewBody { name := "notes.txt", type := "text/plain", size := 10 }
        (runPreviewEffect (fun _ => "") initPreviewState
          (some { name := "notes.txt", type := "text/plain", size := 10 }))
      = PreviewBody.textBlock sampleContent ∧
    sampleContent ≠ "File: " ++ "notes.txt" := by
  refine ⟨rfl, rfl, rfl, rfl, ?_⟩
  decide

/-!
Counting line-break tags.  `countBr cs` counts the positions of `cs`
where the tag `<br/>` occurs (the tag cannot overlap itself, so this is
the plain occurrence count).  The claim-C6 bound follows from: the
newline pass emits one tag per newline, and each later pass never
destroys an occurrence (their deleted characters `*`, `#` and the space
after it never occur inside the tag).
-/

/-- The characters of the line-break tag. -/
def brPat : List Char := ['<', 'b', 'r', '/', '>']

/-- Does the line-break tag occur at the head of `cs`? -/
def brAt (cs : List Char) : Bool := brPat.isPrefixOf cs

/-- Number of positions of `cs` at which the line-break tag occurs. -/
def countBr (cs : List Char) : Nat := cs.tails.countP (fun t => brAt t)

theorem countBr_nil : countBr [] = 0 := by decide

theorem countBr_cons (c : Char) (l : List Char) :
    countBr (c :: l) = (if brAt (c :: l) then 1 else 0) + countBr l := by
  unfold countBr
  rw [List.tails_cons, List.countP_cons]
  exact Nat.add_comm _ _

theorem brAt_append (l b : List Char) (h : brAt l = true) :
    brAt (l ++ b) = true := by
  unfold brAt at h ⊢
  rw [List.isPrefixOf_iff_prefix] at h ⊢
  exact h.trans (List.prefix_append l b)

theorem countBr_le_cons (c : Char) (l : List Char) :
    countBr l ≤ countBr (c :: l) := by
  rw [countBr_cons]
  omega

theorem countBr_append_ge (a b : List Char) :
    countBr a + countBr b ≤ countBr (a ++ b) := by
  induction a with
  | nil =>
    rw [List.nil_append, countBr_nil]
    omega
  | cons c a ih =>
    rw [List.cons_append, countBr_cons, countBr_cons]
    have hbit : (if brAt (c :: a) then (1 : Nat) else 0) ≤
        (if brAt (c :: (a ++ b)) then (1 : Nat) else 0) := by
      by_cases h : brAt (c :: a) = true
      · have h2 : brAt ((c :: a) ++ b) = true := brAt_append _ _ h
        rw [List.cons_append] at h2
        simp [h, h2]
      · simp [h]
    omega

theorem brAt_cons_eq (c : Char) (l : List Char) :
    brAt (c :: l) = (('<' == c) && ['b', 'r', '/', '>'].isPrefixOf l) := rfl

theorem brAt_cons_ne (c : Char) (l : List Char) (h : c ≠ '<') :
    brAt (c :: l) = false := by
  rw [brAt_cons_eq]
  have hqc : ('<' == c) = false :=
    beq_eq_false_iff_ne.mpr (fun hh => h hh.symm)
  rw [hqc, Bool.false_and]

theorem isPrefixOf_append_cons (p : List Char) :
    ∀ (l : List Char) (c : Char) (b : List Char), c ∉ p →
      p.isPrefixOf (l ++ c :: b) = p.isPrefixOf l := by
  induction p with
  | nil =>
    intro l c b _
    cases l <;> rfl
  | cons q p ih =>
    intro l c b h
    rw [List.mem_cons, not_or] at h
    cases l with
    | nil =>
      have hqc : (q == c) = false :=
        beq_eq_false_iff_ne.mpr (fun hh => h.1 hh.symm)
      show ((q == c) && p.isPrefixOf b) = (q :: p).isPrefixOf []
      rw [hqc, Bool.false_and]
      rfl
    | cons d l =>
      show ((q == d) && p.isPrefixOf (l ++ c :: b))
        = ((q == d) && p.isPrefixOf l)
      rw [ih l c b h.2]

theorem countBr_append_cons (a : List Char) (c : Char) (b : List Char)
    (h : c ∉ brPat) : countBr (a ++ c :: b) = countBr a + countBr b := by
  induction a with
  | nil =>
    have hc : c ≠ '<' := fun hh => h (by rw [hh]; decide)
    rw [List.nil_append, countBr_cons, brAt_cons_ne c b hc, countBr_nil]
    simp
  | cons d a ih =>
    rw [List.cons_append, countBr_cons, countBr_cons d a]
    have hb : brAt (d :: (a ++ c :: b)) = brAt (d :: a) := by
      unfold brAt
      have h2 := isPrefixOf_append_cons brPat (d :: a) c b h
      rw [← List.cons_append]
      exact h2
    rw [hb, ih]
    omega

theorem countBr_cons_nonmem (c : Char) (b : List Char) (h : c ∉ brPat) :
    countBr (c :: b) = countBr b := by
  have h2 := countBr_append_cons [] c b h
  rw [List.nil_append, countBr_nil] at h2
  omega

theorem countBr_append_left_nonmem :
    ∀ (mark rest : List Char), (∀ c ∈ mark, c ∉ brPat) →
      countBr (mark ++ rest) = countBr rest
  | [], rest, _ => by rw [List.nil_append]
  | c :: mark, rest, h => by
    rw [List.cons_append,
      countBr_cons_nonmem c _ (h c (List.mem_cons_self c mark)),
      countBr_append_left_nonmem mark rest
        (fun d hd => h d (List.mem_cons_of_mem c hd))]

theorem replaceNl_cons (c : Char) (cs : List Char) :
    replaceNl (c :: cs)
      = (if c = '\n' then "<br/>".data else [c]) ++ replaceNl cs := rfl

theorem countBr_replaceNl (cs : List Char) :
    cs.count '\n' ≤ countBr (replaceNl cs) := by
  induction cs with
  | nil => simp [replaceNl, countBr_nil]
  | cons c cs ih =>
    rw [replaceNl_cons, List.count_cons]
    by_cases h : c = '\n'
    · subst h
      rw [if_pos rfl]
      have h1 := countBr_append_ge "<br/>".data (replaceNl cs)
      have h2 : countBr "<br/>".data = 1 := by decide
      have hbeq : (('\n' : Char) == '\n') = true := by decide
      rw [hbeq, if_pos rfl]
      omega
    · have h2 : (c == '\n') = false := beq_eq_false_iff_ne.mpr h
      rw [if_neg h, List.singleton_append, h2]
      have h3 := countBr_le_cons c (replaceNl cs)
      simp only [Bool.false_eq_true, if_false]
      omega

theorem replaceBold_cons_cons_some {c1 c2 : Char} {rest mid rest2 : List Char}
    (hc : c1 = '*' ∧ c2 = '*') (hlc : lazyClose2 rest = some (mid, rest2)) :
    replaceBold (c1 :: c2 :: rest) =
      "<strong>".data ++ mid ++ "</strong>".data ++ replaceBold rest2 := by
  rw [replaceBold.eq_3, if_pos hc]
  split
  · next mid2 rest3 heq =>
    rw [hlc] at heq
    simp only [Option.some.injEq, Prod.mk.injEq] at heq
    rw [heq.1, heq.2]
  · next heq =>
    rw [hlc] at heq
    exact absurd heq (by simp)

theorem replaceBold_cons_cons_none {c1 c2 : Char} {rest : List Char}
    (hc : c1 = '*' ∧ c2 = '*') (hlc : lazyClose2 rest = none) :
    replaceBold (c1 :: c2 :: rest) = c1 :: replaceBold (c2 :: rest) := by
  rw [replaceBold.eq_3, if_pos hc]
  split
  · next mid2 rest3 heq =>
    rw [hlc] at heq
    exact absurd heq (by simp)
  · rfl

theorem replaceBold_cons_cons_else {c1 c2 : Char} {rest : List Char}
    (hc : ¬(c1 = '*' ∧ c2 = '*')) :
    replaceBold (c1 :: c2 :: rest) = c1 :: replaceBold (c2 :: rest) := by
  rw [replaceBold.eq_3, if_neg hc]

theorem replaceEm_cons_some {rest mid rest2 : List Char}
    (hlc : lazyClose1 rest = some (mid, rest2)) :
    replaceEm ('*' :: rest) = "<em>".data ++ mid ++ "</em>".data ++ replaceEm rest2 := by
  rw [replaceEm.eq_2, if_pos rfl]
  split
  · next mid2 rest3 heq =>
    rw [hlc] at heq
    simp only [Option.some.injEq, Prod.mk.injEq] at heq
    rw [heq.1, heq.2]
  · next heq =>
    rw [hlc] at heq
    exact absurd heq (by simp)

theorem replaceEm_cons_none {rest : List Char}
    (hlc : lazyClose1 rest = none) :
    replaceEm ('*' :: rest) = '*' :: replaceEm rest := by
  rw [replaceEm.eq_2, if_pos rfl]
  split
  · next mid2 rest3 heq =>
    rw [hlc] at heq
    exact absurd heq (by simp)
  · rfl

theorem replaceEm_cons_else {c : Char} {rest : List Char} (hc : ¬c = '*') :
    replaceEm (c :: rest) = c :: replaceEm rest := by
  rw [replaceEm.eq_2, if_neg hc]

theorem replaceBold_isPrefixOf :
    ∀ cs (p : List Char), '*' ∉ p → p.isPrefixOf cs = true →
      p.isPrefixOf (replaceBold cs) = true := by
  intro cs
  induction cs using replaceBold.induct with
  | case1 =>
    intro p hp h
    rw [replaceBold.eq_1]
    exact h
  | case2 c =>
    intro p hp h
    rw [replaceBold.eq_2]
    exact h
  | case3 c1 c2 rest hc mid rest2 hlc ih =>
    intro p hp h
    cases p with
    | nil => simp
    | cons q p2 =>
      exfalso
      obtain ⟨h1, h2⟩ := hc
      subst h1
      rw [show (q :: p2).isPrefixOf ('*' :: c2 :: rest)
          = ((q == '*') && p2.isPrefixOf (c2 :: rest)) from rfl,
        Bool.and_eq_true] at h
      have hq : q = '*' := eq_of_beq h.1
      subst hq
      exact hp (List.mem_cons_self _ _)
  | case4 c1 c2 rest hc hlc ih =>
    intro p hp h
    cases p with
    | nil => simp
    | cons q p2 =>
      exfalso
      obtain ⟨h1, h2⟩ := hc
      subst h1
      rw [show (q :: p2).isPrefixOf ('*' :: c2 :: rest)
          = ((q == '*') && p2.isPrefixOf (c2 :: rest)) from rfl,
        Bool.and_eq_true] at h
      have hq : q = '*' := eq_of_beq h.1
      subst hq
      exact hp (List.mem_cons_self _ _)
  | case5 c1 c2 rest hc ih =>
    intro p hp h
    rw [replaceBold_cons_cons_else hc]
    cases p with
    | nil => simp
    | cons q p2 =>
      rw [show (q :: p2).isPrefixOf (c1 :: c2 :: rest)
          = ((q == c1) && p2.isPrefixOf (c2 :: rest)) from rfl,
        Bool.and_eq_true] at h
      show ((q == c1) && p2.isPrefixOf (replaceBold (c2 :: rest))) = true
      rw [Bool.and_eq_true]
      exact ⟨h.1, ih p2 (fun hm => hp (List.mem_cons_of_mem q hm)) h.2⟩

theorem replaceEm_isPrefixOf :
    ∀ cs (p : List Char), '*' ∉ p → p.isPrefixOf cs = true →
      p.isPrefixOf (replaceEm cs) = true := by
  intro cs
  induction cs using replaceEm.induct with
  | case1 =>
    intro p hp h
    rw [replaceEm.eq_1]
    exact h
  | case2 rest mid rest2 hlc ih =>
    intro p hp h
    cases p with
    | nil => simp
    | cons q p2 =>
      exfalso
      rw [show (q :: p2).isPrefixOf ('*' :: rest)
          = ((q == '*') && p2.isPrefixOf rest) from rfl,
        Bool.and_eq_true] at h
      have hq : q = '*' := eq_of_beq h.1
      subst hq
      exact hp (List.mem_cons_self _ _)
  | case3 rest hlc ih =>
    intro p hp h
    cases p with
    | nil => simp
    | cons q p2 =>
      exfalso
      rw [show (q :: p2).isPrefixOf ('*' :: rest)
          = ((q == '*') && p2.isPrefixOf rest) from rfl,
        Bool.and_eq_true] at h
      have hq : q = '*' := eq_of_beq h.1
      subst hq
      exact hp (List.mem_cons_self _ _)
  | case4 c rest hc ih =>
    intro p hp h
    rw [replaceEm_cons_else hc]
    cases p with
    | nil => simp
    | cons q p2 =>
      rw [show (q :: p2).isPrefixOf (c :: rest)
          = ((q == c) && p2.isPrefixOf rest) from rfl,
        Bool.and_eq_true] at h
      show ((q == c) && p2.isPrefixOf (replaceEm rest)) = true
      rw [Bool.and_eq_true]
      exact ⟨h.1, ih p2 (fun hm => hp (List.mem_cons_of_mem q hm)) h.2⟩

theorem countBr_replaceBold : ∀ cs, countBr cs ≤ countBr (replaceBold cs) := by
  intro cs
  induction cs using replaceBold.induct with
  | case1 =>
    rw [replaceBold.eq_1]
  | case2 c =>
    rw [replaceBold.eq_2]
  | case3 c1 c2 rest hc mid rest2 hlc ih =>
    obtain ⟨h1, h2⟩ := hc
    subst h1
    subst h2
    rw [replaceBold_cons_cons_some ⟨rfl, rfl⟩ hlc]
    have hstar : ('*' : Char) ∉ brPat := by decide
    have hdec := lazyClose2_eq rest mid rest2 hlc
    rw [countBr_cons_nonmem _ _ hstar, countBr_cons_nonmem _ _ hstar, hdec,
      countBr_append_cons mid '*' ('*' :: rest2) hstar,
      countBr_cons_nonmem _ _ hstar]
    have g1 := countBr_append_ge ("<strong>".data ++ mid ++ "</strong>".data)
      (replaceBold rest2)
    have g2 := countBr_append_ge ("<strong>".data ++ mid) ("</strong>".data)
    have g3 := countBr_append_ge "<strong>".data mid
    omega
  | case4 c1 c2 rest hc hlc ih =>
    obtain ⟨h1, h2⟩ := hc
    subst h1
    subst h2
    rw [replaceBold_cons_cons_none ⟨rfl, rfl⟩ hlc]
    have hstar : ('*' : Char) ∉ brPat := by decide
    rw [countBr_cons_nonmem _ _ hstar]
    have hle := countBr_le_cons '*' (replaceBold ('*' :: rest))
    omega
  | case5 c1 c2 rest hc ih =>
    rw [replaceBold_cons_cons_else hc, countBr_cons c1 (c2 :: rest),
      countBr_cons c1 (replaceBold (c2 :: rest))]
    have hbit : (if brAt (c1 :: c2 :: rest) then (1 : Nat) else 0) ≤
        (if brAt (c1 :: replaceBold (c2 :: rest)) then (1 : Nat) else 0) := by
      by_cases hb : brAt (c1 :: c2 :: rest) = true
      · have hb2 : brAt (c1 :: replaceBold (c2 :: rest)) = true := by
          rw [brAt_cons_eq] at hb ⊢
          rw [Bool.and_eq_true] at hb ⊢
          exact ⟨hb.1,
            replaceBold_isPrefixOf (c2 :: rest) _ (by decide) hb.2⟩
        rw [if_pos hb, if_pos hb2]
      · rw [if_neg hb]
        exact Nat.zero_le _
    omega

theorem countBr_replaceEm : ∀ cs, countBr cs ≤ countBr (replaceEm cs) := by
  intro cs
  induction cs using replaceEm.induct with
  | case1 =>
    rw [replaceEm.eq_1]
  | case2 rest mid rest2 hlc ih =>
    rw [replaceEm_cons_some hlc]
    have hstar : ('*' : Char) ∉ brPat := by decide
    have hdec := lazyClose1_eq rest mid rest2 hlc
    rw [countBr_cons_nonmem _ _ hstar, hdec,
      countBr_append_cons mid '*' rest2 hstar]
    have g1 := countBr_append_ge ("<em>".data ++ mid ++ "</em>".data)
      (replaceEm rest2)
    have g2 := countBr_append_ge ("<em>".data ++ mid) ("</em>".data)
    have g3 := countBr_append_ge "<em>".data mid
    omega
  | case3 rest hlc ih =>
    rw [replaceEm_cons_none hlc]
    have hstar : ('*' : Char) ∉ brPat := by decide
    rw [countBr_cons_nonmem _ _ hstar]
    have hle := countBr_le_cons '*' (replaceEm rest)
    omega
  | case4 c rest hc ih =>
    rw [replaceEm_cons_else hc, countBr_cons c rest,
      countBr_cons c (replaceEm rest)]
    have hbit : (if brAt (c :: rest) then (1 : Nat) else 0) ≤
        (if brAt (c :: replaceEm rest) then (1 : Nat) else 0) := by
      by_cases hb : brAt (c :: rest) = true
      · have hb2 : brAt (c :: replaceEm rest) = true := by
          rw [brAt_cons_eq] at hb ⊢
          rw [Bool.and_eq_true] at hb ⊢
          exact ⟨hb.1, replaceEm_isPrefixOf rest _ (by decide) hb.2⟩
        rw [if_pos hb, if_pos hb2]
      · rw [if_neg hb]
        exact Nat.zero_le _
    omega

theorem splitNl_ne_nil : ∀ cs : List Char, splitNl cs ≠ [] := by
  intro cs
  cases cs with
  | nil => simp [splitNl]
  | cons c rest =>
    unfold splitNl
    split
    · simp
    · split <;> simp

theorem joinNl_splitNl : ∀ cs : List Char, joinNl (splitNl cs) = cs := by
  intro cs
  induction cs with
  | nil => rfl
  | cons c rest ih =>
    unfold splitNl
    by_cases h : c = '\n'
    · subst h
      rw [if_pos rfl]
      obtain ⟨l, ls, he⟩ := List.exists_cons_of_ne_nil (splitNl_ne_nil rest)
      rw [he]
      rw [he] at ih
      show [] ++ '\n' :: joinNl (l :: ls) = '\n' :: rest
      rw [List.nil_append, ih]
    · rw [if_neg h]
      obtain ⟨l, ls, he⟩ := List.exists_cons_of_ne_nil (splitNl_ne_nil rest)
      rw [he]
      rw [he] at ih
      cases ls with
      | nil =>
        show c :: l = c :: rest
        rw [show joinNl [l] = l from rfl] at ih
        rw [ih]
      | cons l2 ls2 =>
        show (c :: l) ++ '\n' :: joinNl (l2 :: ls2) = c :: rest
        rw [show joinNl (l :: l2 :: ls2) = l ++ '\n' :: joinNl (l2 :: ls2) from rfl]
          at ih
        rw [List.cons_append, ih]

theorem countBr_joinNl_map (f : List Char → List Char)
    (hf : ∀ l, countBr l ≤ countBr (f l)) :
    ∀ ls : List (List Char),
      countBr (joinNl ls) ≤ countBr (joinNl (ls.map f))
  | [] => Nat.le_refl _
  | [l] => by
    show countBr (joinNl [l]) ≤ countBr (joinNl [f l])
    rw [show joinNl [l] = l from rfl, show joinNl [f l] = f l from rfl]
    exact hf l
  | l :: l2 :: ls => by
    have ih := countBr_joinNl_map f hf (l2 :: ls)
    rw [show joinNl (l :: l2 :: ls) = l ++ '\n' :: joinNl (l2 :: ls) from rfl]
    rw [List.map_cons, List.map_cons]
    rw [show joinNl (f l :: f l2 :: ls.map f)
        = f l ++ '\n' :: joinNl (f l2 :: ls.map f) from rfl]
    rw [countBr_append_cons _ _ _ (by decide),
      countBr_append_cons _ _ _ (by decide)]
    have h1 := hf l
    rw [List.map_cons] at ih
    omega

theorem countBr_headingLine (mark openTag closeTag : List Char)
    (hm : ∀ c ∈ mark, c ∉ brPat) (line : List Char) :
    countBr line ≤ countBr (if mark.isPrefixOf line
      then openTag ++ line.drop mark.length ++ closeTag else line) := by
  split
  · next h =>
    have hdec : mark ++ line.drop mark.length = line :=
      List.prefix_iff_eq_append.mp (List.isPrefixOf_iff_prefix.mp h)
    have h1 : countBr line = countBr (line.drop mark.length) := by
      conv_lhs => rw [← hdec]
      exact countBr_append_left_nonmem mark _ hm
    have a1 := countBr_append_ge openTag (line.drop mark.length)
    have a2 := countBr_append_ge (openTag ++ line.drop mark.length) closeTag
    omega
  · exact Nat.le_refl _

theorem countBr_replaceHeadingPass (mark openTag closeTag : List Char)
    (hm : ∀ c ∈ mark, c ∉ brPat) (cs : List Char) :
    countBr cs ≤ countBr (replaceHeadingPass mark openTag closeTag cs) := by
  unfold replaceHeadingPass
  conv_lhs => rw [← joinNl_splitNl cs]
  exact countBr_joinNl_map _
    (fun l => countBr_headingLine mark openTag closeTag hm l) (splitNl cs)

/-- Number of line-break tags `<br/>` occurring in a string. -/
def countLineBreakTags (s : String) : Nat := countBr s.data

/-- Number of newline characters in a string. -/
def countNewlines (s : String) : Nat := s.data.count '\n'

/-- Claim C6: the formatter is exactly the fixed substitution chain
newline, bold, italic, heading 1, heading 2, heading 3, in that order;
`**bold**` renders with a `<strong>bold</strong>` tag, `# Title` with
`<h1>Title</h1>`, and for every input the output contains a line-break
tag for each newline of the input. -/
theorem C6_markdown_formatter :
    (∀ s, formatMarkdownForDisplay s = String.mk (replaceH3 (replaceH2
      (replaceH1 (replaceEm (replaceBold (replaceNl s.data))))))) ∧
    subOccurs "<strong>bold</strong>"
      (formatMarkdownForDisplay "**bold**") = true ∧
    subOccurs "<h1>Title</h1>" (formatMarkdownForDisplay "# Title") = true ∧
    (∀ s, countNewlines s ≤ countLineBreakTags (formatMarkdownForDisplay s)) := by
  refine ⟨fun s => rfl, ?_, ?_, ?_⟩
  · rw [← formatMarkdownForDisplayF_eq]
    decide
  · rw [← formatMarkdownForDisplayF_eq]
    decide
  · intro s
    unfold countNewlines countLineBreakTags formatMarkdownForDisplay
    unfold replaceH1 replaceH2 replaceH3
    have h1 := countBr_replaceNl s.data
    have h2 := countBr_replaceBold (replaceNl s.data)
    have h3 := countBr_replaceEm (replaceBold (replaceNl s.data))
    have h4 := countBr_replaceHeadingPass "# ".data "<h1>".data "</h1>".data
      (by decide) (replaceEm (replaceBold (replaceNl s.data)))
    have h5 := countBr_replaceHeadingPass "## ".data "<h2>".data "</h2>".data
      (by decide) (replaceHeadingPass "# ".data "<h1>".data "</h1>".data
        (replaceEm (replaceBold (replaceNl s.data))))
    have h6 := countBr_replaceHeadingPass "### ".data "<h3>".data "</h3>".data
      (by decide) (replaceHeadingPass "## ".data "<h2>".data "</h2>".data
        (replaceHeadingPass "# ".data "<h1>".data "</h1>".data
          (replaceEm (replaceBold (replaceNl s.data)))))
    exact Nat.le_trans h1 (Nat.le_trans h2 (Nat.le_trans h3
      (Nat.le_trans h4 (Nat.le_trans h5 h6))))

end DotOcr
